import Mathlib

/-!
# Verification of the Monte-Carlo currency simulation core

Shallow embedding of `monte_carlo.py` (classes `CurrencyMonteCarlo` and
`MultiCurrencyMonteCarlo`) over real arithmetic.  Python floats are modelled
as real numbers; IEEE NaN values (which arise from `np.std(·, ddof=1)` on a
single sample, a 0/0) are modelled as `Option.none`.  NumPy's seeded
generator `np.random.default_rng(seed)` is external library code; the stream
of standard-normal variates it produces is abstracted as a function
`Z : ℕ → ℕ → ℝ` (row `i`, step `t`), and where seeding matters the stream is
obtained from an arbitrary fixed function of the integer seed.
Exceptions (`ValueError`, `RuntimeError`) are modelled with `Except`.
-/

noncomputable section

/-- Errors raised by the core: `ValueError` (invalid argument) and the
`RuntimeError` raised when a query precedes `simulate()`. -/
inductive SimError where
  | invalidArgument : SimError
  | notSimulated : SimError
deriving DecidableEq

/-- A simulated path matrix: `rows = n_simulations`, `cols = days`,
`entry i t` the rate of trajectory `i` at time step `t`. -/
structure PathMatrix where
  rows : ℕ
  cols : ℕ
  entry : ℕ → ℕ → ℝ

/-- The state of one `CurrencyMonteCarlo` instance: the validated
constructor parameters together with the two mutable caches
(`self._simulations`, `self._predicted_rates`), which are `None` until the
first successful `simulate()` call. -/
structure CurrencyMonteCarlo where
  initial_rate : ℝ
  mu : ℝ
  sigma : ℝ
  trading_days_per_year : ℤ
  _simulations : Option PathMatrix
  _predicted_rates : Option (List ℝ)

/-- Embeds `CurrencyMonteCarlo.__init__`: validates the parameters and initialises
both caches to `None`. -/
def CurrencyMonteCarlo.init (initial_rate mu sigma : ℝ)
    (trading_days_per_year : ℤ) : Except SimError CurrencyMonteCarlo :=
  if initial_rate ≤ 0 then .error .invalidArgument
  else if sigma < 0 then .error .invalidArgument
  else if trading_days_per_year ≤ 0 then .error .invalidArgument
  else .ok ⟨initial_rate, mu, sigma, trading_days_per_year, none, none⟩

/-- The `simulations` property: a copy of the cached path matrix, or `None`.
Copying is a memory-aliasing concern; in this value semantics the accessor
returns the cached value itself. -/
def CurrencyMonteCarlo.simulations (m : CurrencyMonteCarlo) :
    Option PathMatrix :=
  m._simulations

/-- The `predicted_rates` property: a copy of the cached terminal column,
or `None`. -/
def CurrencyMonteCarlo.predicted_rates (m : CurrencyMonteCarlo) :
    Option (List ℝ) :=
  m._predicted_rates

/-- Embeds `CurrencyMonteCarlo.simulate`: vectorized GBM.  `Z i t` stands for the
`(i, t)` entry of the `(n_simulations, days − 1)` array drawn from the
seeded generator (row-major consumption order).  Mirrors the source: the
log-return matrix prepends a zero column to the incremental log-returns and
takes the cumulative sum along time (`∑ k < t`), and the path is
`exp(log(initial_rate) + log_returns)`; for `n_steps = 1` the log-return
matrix is the zero column.  Returns the Python return value (full paths or
terminal column, by `return_paths`) together with the updated instance. -/
def CurrencyMonteCarlo.simulate (m : CurrencyMonteCarlo)
    (days n_simulations : ℕ) (Z : ℕ → ℕ → ℝ) (return_paths : Bool) :
    Except SimError ((PathMatrix ⊕ List ℝ) × CurrencyMonteCarlo) :=
  if days < 1 then .error .invalidArgument
  else if n_simulations < 1 then .error .invalidArgument
  else
    let dt : ℝ := 1 / (m.trading_days_per_year : ℝ)
    let drift := (m.mu - 0.5 * m.sigma ^ 2) * dt
    let diffusion := m.sigma * Real.sqrt dt
    let log_returns : ℕ → ℕ → ℝ := fun i t =>
      if 1 < days then ∑ k ∈ Finset.range t, (drift + diffusion * Z i k)
      else 0
    let paths : PathMatrix :=
      ⟨n_simulations, days,
        fun i t => Real.exp (Real.log m.initial_rate + log_returns i t)⟩
    let predicted : List ℝ :=
      (List.range n_simulations).map fun i => paths.entry i (days - 1)
    let m' : CurrencyMonteCarlo :=
      { m with _simulations := some paths, _predicted_rates := some predicted }
    .ok ((if return_paths then .inl paths else .inr predicted), m')

/-- Embeds `np.mean` of a 1-D array. -/
def listMean (l : List ℝ) : ℝ :=
  l.sum / l.length

/-- Embeds `np.median` of a 1-D array (sorts, middle element, or the average of
the two middle elements for even length). -/
def listMedian (l : List ℝ) : ℝ :=
  let s := List.insertionSort (fun a b => a ≤ b) l
  let n := l.length
  if n % 2 = 1 then s.getD (n / 2) 0
  else (s.getD (n / 2 - 1) 0 + s.getD (n / 2) 0) / 2

/-- Embeds `np.std(·, ddof=1)` (sample standard deviation).  With fewer than two
samples the divisor `N − 1` is not positive and NumPy produces NaN,
modelled here as `none`. -/
def listStdSample (l : List ℝ) : Option ℝ :=
  if l.length ≤ 1 then none
  else some (Real.sqrt
    ((l.map fun x => (x - listMean l) ^ 2).sum / ((l.length : ℝ) - 1)))

/-- Embeds `np.min` of a non-empty 1-D array (junk value `0` on the unreachable
empty case). -/
def listMin (l : List ℝ) : ℝ :=
  match l with
  | [] => 0
  | x :: xs => xs.foldl (fun a b => min a b) x

/-- Embeds `np.max` of a non-empty 1-D array. -/
def listMax (l : List ℝ) : ℝ :=
  match l with
  | [] => 0
  | x :: xs => xs.foldl (fun a b => max a b) x

/-- Embeds `np.percentile(l, q)` with the default linear interpolation between
order statistics: virtual index `h = q/100·(n−1)`, lower order statistic
`s[⌊h⌋]`, interpolated toward `s[⌊h⌋+1]` by the fractional part. -/
def percentile (l : List ℝ) (q : ℝ) : ℝ :=
  let s := List.insertionSort (fun a b => a ≤ b) l
  let h : ℝ := q / 100 * ((l.length : ℝ) - 1)
  let f : ℕ := (⌊h⌋).toNat
  s.getD f 0 + (h - (f : ℝ)) * (s.getD (f + 1) 0 - s.getD f 0)

/-- Structured prediction output.  `std` is an `Option` because NumPy's
sample standard deviation of a single value is NaN (0/0). -/
structure PredictionResult where
  mean : ℝ
  median : ℝ
  std : Option ℝ
  min_val : ℝ
  max_val : ℝ
  confidence_interval : ℝ × ℝ
  confidence_level : ℝ

/-- VaR output record. -/
structure VaRResult where
  var_percent : ℝ
  var_amount : ℝ
  cvar_percent : ℝ
  confidence_level : ℝ
  initial_investment : ℝ

/-- The statistics `get_prediction` computes from the cached terminal
column `pred` (the pure reduction, after the state/argument guards). -/
def predictionOf (pred : List ℝ) (confidence_level : ℝ) : PredictionResult :=
  let alpha := 1 - confidence_level
  { mean := listMean pred
    median := listMedian pred
    std := listStdSample pred
    min_val := listMin pred
    max_val := listMax pred
    confidence_interval :=
      (percentile pred (100 * alpha / 2), percentile pred (100 * (1 - alpha / 2)))
    confidence_level := confidence_level }

/-- Embeds `CurrencyMonteCarlo.get_prediction`: requires a prior `simulate()`
(checked first), then `0 < confidence_level < 1`. -/
def CurrencyMonteCarlo.get_prediction (m : CurrencyMonteCarlo)
    (confidence_level : ℝ) : Except SimError PredictionResult :=
  match m._predicted_rates with
  | none => .error .notSimulated
  | some pred =>
    if ¬(0 < confidence_level ∧ confidence_level < 1) then
      .error .invalidArgument
    else .ok (predictionOf pred confidence_level)

/-- The VaR/CVaR reduction `calculate_var` performs on the cached terminal
column, after the guards: simple returns against `initial_rate`, the
`100·(1−confidence)` percentile as the VaR quantile, and the mean of the
tail `{r ≤ var_quantile}` as CVaR (falling back to the quantile itself on
an empty tail). -/
def varOf (initial_rate : ℝ) (pred : List ℝ)
    (confidence_level initial_investment : ℝ) : VaRResult :=
  let returns := pred.map fun s => (s - initial_rate) / initial_rate
  let var_quantile := percentile returns (100 * (1 - confidence_level))
  let var_amount := initial_investment * |var_quantile|
  let tail_returns := returns.filter fun r => r ≤ var_quantile
  let cvar := if 0 < tail_returns.length then listMean tail_returns
    else var_quantile
  { var_percent := var_quantile * 100
    var_amount := var_amount
    cvar_percent := cvar * 100
    confidence_level := confidence_level
    initial_investment := initial_investment }

/-- Embeds `CurrencyMonteCarlo.calculate_var`: requires a prior `simulate()`
(checked first), then `0 < confidence_level < 1` and
`initial_investment > 0`. -/
def CurrencyMonteCarlo.calculate_var (m : CurrencyMonteCarlo)
    (confidence_level initial_investment : ℝ) : Except SimError VaRResult :=
  match m._predicted_rates with
  | none => .error .notSimulated
  | some pred =>
    if ¬(0 < confidence_level ∧ confidence_level < 1) then
      .error .invalidArgument
    else if initial_investment ≤ 0 then .error .invalidArgument
    else .ok (varOf m.initial_rate pred confidence_level initial_investment)

/-- Embeds `CurrencyMonteCarlo.calculate_probability`: fraction of terminal values
`≥ target_rate`; requires a prior `simulate()` (checked first), then
`target_rate > 0`. -/
def CurrencyMonteCarlo.calculate_probability (m : CurrencyMonteCarlo)
    (target_rate : ℝ) : Except SimError ℝ :=
  match m._predicted_rates with
  | none => .error .notSimulated
  | some pred =>
    if target_rate ≤ 0 then .error .invalidArgument
    else .ok ((pred.countP fun x => decide (target_rate ≤ x)) / (pred.length : ℝ))

/-- Rounding of a real to the nearest integer, ties to even (the rounding
NumPy and pandas apply in `DataFrame.round`). -/
def roundHalfToEven (x : ℝ) : ℤ :=
  if x - ⌊x⌋ < 1 / 2 then ⌊x⌋
  else if 1 / 2 < x - ⌊x⌋ then ⌊x⌋ + 1
  else if Even ⌊x⌋ then ⌊x⌋ else ⌊x⌋ + 1

/-- Embeds `round(·, 4)` as applied by `pd.DataFrame.round(4)` to every numeric
column of the comparison table. -/
def round4 (x : ℝ) : ℝ :=
  (roundHalfToEven (x * 10000) : ℝ) / 10000

/-- One row of the orchestrator's comparison table (column names of the
source DataFrame rendered as record fields).  `std_dev` keeps the NaN
(`none`) of a single-sample standard deviation: rounding leaves NaN
untouched. -/
structure ComparisonRow where
  currency_pair : String
  initial_rate : ℝ
  predicted_mean : ℝ
  predicted_median : ℝ
  std_dev : Option ℝ
  var_percent : ℝ
  min_val : ℝ
  max_val : ℝ
  ci_lower : ℝ
  ci_upper : ℝ

/-- The comparison row `get_comparison` builds for a simulated asset:
`get_prediction()` at the default confidence level 0.95 and
`calculate_var()` at the defaults (0.95, 10000), every numeric column then
rounded to 4 decimals by the final `DataFrame.round(4)`. -/
def mkRow (id : String) (m : CurrencyMonteCarlo) (l : List ℝ) :
    ComparisonRow :=
  let pred := predictionOf l 0.95
  let var := varOf m.initial_rate l 0.95 10000
  { currency_pair := id
    initial_rate := round4 m.initial_rate
    predicted_mean := round4 pred.mean
    predicted_median := round4 pred.median
    std_dev := pred.std.map round4
    var_percent := round4 var.var_percent
    min_val := round4 pred.min_val
    max_val := round4 pred.max_val
    ci_lower := round4 pred.confidence_interval.1
    ci_upper := round4 pred.confidence_interval.2 }

/-- The row contributed by one `models` entry: skipped (`none`) when the
asset has not been simulated. -/
def rowOf (id : String) (m : CurrencyMonteCarlo) : Option ComparisonRow :=
  m._predicted_rates.map fun l => mkRow id m l

/-- The multi-asset orchestrator: an insertion-ordered keyed collection of
single-asset simulators (`self.models`, a Python dict preserving insertion
order). -/
structure MultiCurrencyMonteCarlo where
  models : List (String × CurrencyMonteCarlo)

/-- Embeds `MultiCurrencyMonteCarlo.get_comparison`: one row per simulated asset
in insertion order; never-simulated assets are skipped; both the
no-assets and the nothing-simulated cases collapse to the empty table. -/
def MultiCurrencyMonteCarlo.get_comparison (o : MultiCurrencyMonteCarlo) :
    List ComparisonRow :=
  o.models.filterMap fun p => rowOf p.1 p.2

/-! ## Concrete instances used by witnesses and counterexamples -/

/-- A freshly constructed simulator with the source's default parameters
(`initial_rate=75.0, mu=0.05, sigma=0.15, trading_days_per_year=252`). -/
def mcFresh : CurrencyMonteCarlo := ⟨75, 5 / 100, 15 / 100, 252, none, none⟩

/-- A simulator with the default parameters of `mcFresh` but a stale
terminal-column cache, to exhibit independence from cached state. -/
def mcStale : CurrencyMonteCarlo := ⟨75, 5 / 100, 15 / 100, 252, none, some [99]⟩

/-! ## Theorems -/

/-- C1. For valid parameters, `days > 1` and `n_simulations ≥ 1`,
`simulate` succeeds and returns an `(n_simulations, days)` matrix computed
from the variate array `Z` by
`increment[i,t] = (μ − 0.5σ²)·dt + σ·√dt·Z[i,t]` with
`dt = 1/trading_days_per_year`, cumulative log-path `L[i,0] = 0`,
`L[i,t] = L[i,t−1] + increment[i,t−1]`, and
`S[i,t] = initial_rate · exp(L[i,t])`. -/
theorem gbm_paths_follow_discretized_formula
    (m : CurrencyMonteCarlo) (days n_simulations : ℕ) (Z : ℕ → ℕ → ℝ)
    (hrate : 0 < m.initial_rate) (hdays : 1 < days) (hn : 1 ≤ n_simulations) :
    ∃ pm m', m.simulate days n_simulations Z true = .ok (.inl pm, m') ∧
      pm.rows = n_simulations ∧ pm.cols = days ∧
      ∃ L : ℕ → ℕ → ℝ,
        (∀ i, L i 0 = 0) ∧
        (∀ i t, 0 < t → t < days → L i t = L i (t - 1) +
          ((m.mu - 0.5 * m.sigma ^ 2) * (1 / (m.trading_days_per_year : ℝ)) +
            m.sigma * Real.sqrt (1 / (m.trading_days_per_year : ℝ)) * Z i (t - 1))) ∧
        (∀ i t, i < n_simulations → t < days →
          pm.entry i t = m.initial_rate * Real.exp (L i t)) := by
  have hd' : ¬ days < 1 := by omega
  have hn' : ¬ n_simulations < 1 := by omega
  simp only [CurrencyMonteCarlo.simulate, if_neg hd', if_neg hn']
  refine ⟨_, _, rfl, rfl, rfl, ?_⟩
  refine ⟨fun i t => ∑ k ∈ Finset.range t,
      ((m.mu - 0.5 * m.sigma ^ 2) * (1 / (m.trading_days_per_year : ℝ)) +
        m.sigma * Real.sqrt (1 / (m.trading_days_per_year : ℝ)) * Z i k),
    fun i => Finset.sum_range_zero _, ?_, ?_⟩
  · intro i t ht _
    obtain ⟨s, rfl⟩ : ∃ s, t = s + 1 := ⟨t - 1, by omega⟩
    simp [Finset.sum_range_succ]
  · intro i t _ _
    show Real.exp (Real.log m.initial_rate + _) = _
    rw [if_pos hdays, Real.exp_add, Real.exp_log hrate]

/-- Witness for C1 at the default parameters, `days = 2`,
`n_simulations = 1` and the zero variate stream. -/
theorem gbm_paths_follow_discretized_formula_witness :
    ∃ pm m', mcFresh.simulate 2 1 (fun _ _ => 0) true = .ok (.inl pm, m') ∧
      pm.rows = 1 ∧ pm.cols = 2 := by
  obtain ⟨pm, m', hok, hr, hc, -⟩ :=
    gbm_paths_follow_discretized_formula mcFresh 2 1 (fun _ _ => 0)
      (by norm_num [mcFresh]) (by norm_num) (by norm_num)
  exact ⟨pm, m', hok, hr, hc⟩

/-- C2. With the seeded generator modelled as a fixed function `g` of
the integer seed alone, `simulate` is a deterministic function of
`(params, days, n_simulations, seed)`: two instances agreeing on all four
constructor parameters (whatever their cached state) produce identical
results, including identical updated caches. -/
theorem simulate_deterministic_in_seed_and_params
    (g : ℤ → ℕ → ℕ → ℝ) (m1 m2 : CurrencyMonteCarlo)
    (days n_simulations : ℕ) (seed : ℤ) (return_paths : Bool)
    (h1 : m1.initial_rate = m2.initial_rate) (h2 : m1.mu = m2.mu)
    (h3 : m1.sigma = m2.sigma)
    (h4 : m1.trading_days_per_year = m2.trading_days_per_year)
    (hdays : 1 ≤ days) (hn : 1 ≤ n_simulations) :
    m1.simulate days n_simulations (g seed) return_paths =
      m2.simulate days n_simulations (g seed) return_paths := by
  obtain ⟨a1, b1, c1, d1, s1, p1⟩ := m1
  obtain ⟨a2, b2, c2, d2, s2, p2⟩ := m2
  have e1 : a1 = a2 := h1
  have e2 : b1 = b2 := h2
  have e3 : c1 = c2 := h3
  have e4 : d1 = d2 := h4
  subst e1; subst e2; subst e3; subst e4
  have hd' : ¬ days < 1 := by omega
  have hn' : ¬ n_simulations < 1 := by omega
  simp only [CurrencyMonteCarlo.simulate, if_neg hd', if_neg hn']

/-- Witness for C2: a fresh instance and an identically parameterised
instance carrying a stale cache give identical results. -/
theorem simulate_deterministic_in_seed_and_params_witness :
    mcFresh.simulate 30 5000 ((fun _ _ _ => (0 : ℝ)) 42) true =
      mcStale.simulate 30 5000 ((fun _ _ _ => (0 : ℝ)) 42) true :=
  simulate_deterministic_in_seed_and_params (fun _ _ _ => 0) mcFresh mcStale
    30 5000 42 true rfl rfl rfl rfl (by norm_num) (by norm_num)

/-- C3. For every valid configuration, `days ≥ 1`, `n_simulations ≥ 1`
and variate stream, every row of the returned matrix has column 0 equal to
`initial_rate`, and for `days = 1` every entry equals `initial_rate`
(real-arithmetic semantics: `exp(log S₀) = S₀`). -/
theorem path_matrix_first_column_eq_initial_rate
    (m : CurrencyMonteCarlo) (days n_simulations : ℕ) (Z : ℕ → ℕ → ℝ)
    (hrate : 0 < m.initial_rate) (hdays : 1 ≤ days) (hn : 1 ≤ n_simulations) :
    ∃ pm m', m.simulate days n_simulations Z true = .ok (.inl pm, m') ∧
      (∀ i, i < n_simulations → pm.entry i 0 = m.initial_rate) ∧
      (days = 1 → ∀ i t, i < n_simulations → t < days →
        pm.entry i t = m.initial_rate) := by
  have hd' : ¬ days < 1 := by omega
  have hn' : ¬ n_simulations < 1 := by omega
  simp only [CurrencyMonteCarlo.simulate, if_neg hd', if_neg hn']
  refine ⟨_, _, rfl, ?_, ?_⟩
  · intro i _
    show Real.exp (Real.log m.initial_rate +
      if 1 < days then ∑ _k ∈ Finset.range 0, _ else 0) = _
    rw [Finset.sum_range_zero, ite_self, add_zero, Real.exp_log hrate]
  · intro h1 i t _ ht
    subst h1
    have : t = 0 := by omega
    subst this
    show Real.exp (Real.log m.initial_rate +
      if 1 < 1 then ∑ _k ∈ Finset.range 0, _ else 0) = _
    rw [Finset.sum_range_zero, ite_self, add_zero, Real.exp_log hrate]

/-- Witness for C3 at the default parameters with `days = 1` (the
degenerate single-column case). -/
theorem path_matrix_first_column_eq_initial_rate_witness :
    ∃ pm m', mcFresh.simulate 1 1 (fun _ _ => 0) true = .ok (.inl pm, m') ∧
      pm.entry 0 0 = mcFresh.initial_rate := by
  obtain ⟨pm, m', hok, hcol, -⟩ :=
    path_matrix_first_column_eq_initial_rate mcFresh 1 1 (fun _ _ => 0)
      (by norm_num [mcFresh]) (by norm_num) (by norm_num)
  exact ⟨pm, m', hok, hcol 0 (by norm_num)⟩

/-- C9. `simulate` with `return_paths = False` returns exactly the
last column of the matrix the `return_paths = True` call returns, as a
length-`n_simulations` vector, and leaves the instance in the identical
cached state. -/
theorem simulate_return_paths_false_is_last_column
    (m : CurrencyMonteCarlo) (days n_simulations : ℕ) (Z : ℕ → ℕ → ℝ)
    (hdays : 1 ≤ days) (hn : 1 ≤ n_simulations) :
    ∃ pm m', m.simulate days n_simulations Z true = .ok (.inl pm, m') ∧
      m.simulate days n_simulations Z false =
        .ok (.inr ((List.range n_simulations).map fun i =>
          pm.entry i (days - 1)), m') ∧
      ((List.range n_simulations).map fun i =>
        pm.entry i (days - 1)).length = n_simulations ∧
      m'._simulations = some pm ∧
      m'._predicted_rates =
        some ((List.range n_simulations).map fun i =>
          pm.entry i (days - 1)) := by
  have hd' : ¬ days < 1 := by omega
  have hn' : ¬ n_simulations < 1 := by omega
  simp only [CurrencyMonteCarlo.simulate, if_neg hd', if_neg hn']
  exact ⟨_, _, rfl, rfl, by simp, rfl, rfl⟩

/-- Witness for C9 at the default parameters with `days = 2`,
`n_simulations = 1`. -/
theorem simulate_return_paths_false_is_last_column_witness :
    ∃ pm m', mcFresh.simulate 2 1 (fun _ _ => 0) true = .ok (.inl pm, m') ∧
      mcFresh.simulate 2 1 (fun _ _ => 0) false =
        .ok (.inr ((List.range 1).map fun i => pm.entry i (2 - 1)), m') := by
  obtain ⟨pm, m', h1, h2, -, -, -⟩ :=
    simulate_return_paths_false_is_last_column mcFresh 2 1 (fun _ _ => 0)
      (by norm_num) (by norm_num)
  exact ⟨pm, m', h1, h2⟩

/-- C8. On a freshly constructed simulator (no successful `simulate()`
call yet) each of `get_prediction`, `calculate_var` and
`calculate_probability` fails with the not-simulated error for every
argument value: the cache check precedes all argument validation. -/
theorem queries_before_simulate_fail_not_simulated
    (initial_rate mu sigma : ℝ) (trading_days_per_year : ℤ)
    (m : CurrencyMonteCarlo)
    (h : CurrencyMonteCarlo.init initial_rate mu sigma trading_days_per_year
      = .ok m) :
    (∀ c, m.get_prediction c = .error .notSimulated) ∧
    (∀ c inv, m.calculate_var c inv = .error .notSimulated) ∧
    (∀ t, m.calculate_probability t = .error .notSimulated) := by
  unfold CurrencyMonteCarlo.init at h
  split at h
  · cases h
  split at h
  · cases h
  split at h
  · cases h
  injection h with h
  subst h
  exact ⟨fun c => rfl, fun c inv => rfl, fun t => rfl⟩

/-- Witness for C8 at the default construction, querying with invalid
arguments (`confidence_level = 3/2`, `initial_investment = −5`): the
not-simulated error still wins. -/
theorem queries_before_simulate_fail_not_simulated_witness :
    mcFresh.get_prediction (3 / 2) = .error .notSimulated ∧
    mcFresh.calculate_var (1 / 2) (-5) = .error .notSimulated ∧
    mcFresh.calculate_probability 80 = .error .notSimulated := by
  obtain ⟨h1, h2, h3⟩ :=
    queries_before_simulate_fail_not_simulated 75 (5 / 100) (15 / 100) 252
      mcFresh (by norm_num [CurrencyMonteCarlo.init, mcFresh])
  exact ⟨h1 _, h2 _ _, h3 _⟩

/-- C10. In `Configured` state (fresh construction) the public
accessors `simulations` and `predicted_rates` return `None` rather than
raising; after any successful `simulate()` call they return the cached
path matrix and terminal column (value equality models the copy the
source hands out). -/
theorem accessors_none_before_some_after
    (initial_rate mu sigma : ℝ) (trading_days_per_year : ℤ)
    (m : CurrencyMonteCarlo)
    (h : CurrencyMonteCarlo.init initial_rate mu sigma trading_days_per_year
      = .ok m) :
    m.simulations = none ∧ m.predicted_rates = none ∧
    (∀ days n_simulations Z return_paths out m',
      m.simulate days n_simulations Z return_paths = .ok (out, m') →
        m'.simulations = m'._simulations ∧
        m'.predicted_rates = m'._predicted_rates ∧
        (∃ pm, m'._simulations = some pm) ∧
        (∃ l, m'._predicted_rates = some l)) := by
  unfold CurrencyMonteCarlo.init at h
  split at h
  · cases h
  split at h
  · cases h
  split at h
  · cases h
  injection h with h
  subst h
  refine ⟨rfl, rfl, ?_⟩
  intro days n_simulations Z return_paths out m' hs
  unfold CurrencyMonteCarlo.simulate at hs
  split at hs
  · cases hs
  split at hs
  · cases hs
  injection hs with hs
  obtain ⟨-, h6⟩ := Prod.mk.inj hs
  subst h6
  exact ⟨rfl, rfl, ⟨_, rfl⟩, ⟨_, rfl⟩⟩

/-- Witness for C10 at the default construction. -/
theorem accessors_none_before_some_after_witness :
    mcFresh.simulations = none ∧ mcFresh.predicted_rates = none := by
  obtain ⟨h1, h2, -⟩ :=
    accessors_none_before_some_after 75 (5 / 100) (15 / 100) 252 mcFresh
      (by norm_num [CurrencyMonteCarlo.init, mcFresh])
  exact ⟨h1, h2⟩

/-! ## Reducer evaluation lemmas -/

/-- The mean of a one-element sample is that element. -/
theorem listMean_singleton (v : ℝ) : listMean [v] = v := by
  simp [listMean]

/-- The mean of a list all of whose elements are at most `q` is at most
`q` (for a non-empty list). -/
theorem listMean_le_of_forall_le {l : List ℝ} {q : ℝ} (hne : l ≠ [])
    (h : ∀ x ∈ l, x ≤ q) : listMean l ≤ q := by
  have hlen : 0 < (l.length : ℝ) := by
    have := List.length_pos.mpr hne
    exact_mod_cast this
  rw [listMean, div_le_iff₀ hlen]
  calc l.sum ≤ l.length • q := List.sum_le_card_nsmul l q h
    _ = (l.length : ℝ) * q := nsmul_eq_mul _ _
    _ = q * (l.length : ℝ) := mul_comm _ _

/-- Any percentile of a one-element sample is that element. -/
theorem percentile_singleton (v q : ℝ) : percentile [v] q = v := by
  simp [percentile]

/-- Linear-interpolation percentile of a sorted pair, for
`0 ≤ q/100 < 1`. -/
theorem percentile_pair (a b q : ℝ) (hab : a ≤ b) (h0 : 0 ≤ q / 100)
    (h1 : q / 100 < 1) : percentile [a, b] q = a + q / 100 * (b - a) := by
  have hs : List.insertionSort (fun x y => x ≤ y) [a, b] = [a, b] := by
    simp [List.insertionSort, List.orderedInsert, hab]
  have hlen : (([a, b] : List ℝ).length : ℝ) - 1 = 1 := by norm_num
  have hf : ⌊q / 100⌋ = (0 : ℤ) := by
    rw [Int.floor_eq_iff]
    constructor
    · simpa using h0
    · simpa using h1
  simp only [percentile, hlen, mul_one, hs, hf, Int.toNat_zero]
  simp [List.getD]

/-- The median of a one-element sample is that element. -/
theorem listMedian_singleton (v : ℝ) : listMedian [v] = v := by
  simp [listMedian, List.insertionSort, List.orderedInsert]

/-- The sample standard deviation of a one-element sample is NaN
(modelled as `none`), because `ddof = 1` makes the divisor zero. -/
theorem listStdSample_singleton (v : ℝ) : listStdSample [v] = none := by
  simp [listStdSample]

/-- Evaluation lemma: `List.range 1` is the single index `0`. -/
theorem range_one_eq : List.range 1 = [0] := rfl

/-- Evaluation lemma: `np.min` of a one-element sample is that element. -/
theorem listMin_singleton (v : ℝ) : listMin [v] = v := rfl

/-- Evaluation lemma: `np.max` of a one-element sample is that element. -/
theorem listMax_singleton (v : ℝ) : listMax [v] = v := rfl

/-- C5, amended. After a `simulate` call with `n_simulations = 1`,
`get_prediction` reports `std` as NaN (modelled `none`) — not `0`, because
`np.std(·, ddof=1)` on one sample divides by zero — while
`mean == median == min == max ==` the single simulated terminal value. -/
theorem single_simulation_prediction_degenerate
    (m : CurrencyMonteCarlo) (days : ℕ) (Z : ℕ → ℕ → ℝ)
    (return_paths : Bool) (out : PathMatrix ⊕ List ℝ)
    (m' : CurrencyMonteCarlo)
    (hsim : m.simulate days 1 Z return_paths = .ok (out, m'))
    (confidence_level : ℝ) (r : PredictionResult)
    (hpred : m'.get_prediction confidence_level = .ok r) :
    ∃ v, m'._predicted_rates = some [v] ∧ r.std = none ∧
      r.mean = v ∧ r.median = v ∧ r.min_val = v ∧ r.max_val = v := by
  unfold CurrencyMonteCarlo.simulate at hsim
  split at hsim
  · cases hsim
  split at hsim
  · cases hsim
  injection hsim with hsim
  obtain ⟨-, h6⟩ := Prod.mk.inj hsim
  subst h6
  simp only [range_one_eq, List.map_cons, List.map_nil] at hpred
  simp only [CurrencyMonteCarlo.get_prediction] at hpred
  split at hpred
  · cases hpred
  injection hpred with hpred
  subst hpred
  simp only [range_one_eq, List.map_cons, List.map_nil, predictionOf]
  exact ⟨Real.exp (Real.log m.initial_rate +
      if 1 < days then ∑ k ∈ Finset.range (days - 1),
        ((m.mu - 0.5 * m.sigma ^ 2) * (1 / (m.trading_days_per_year : ℝ)) +
          m.sigma * Real.sqrt (1 / (m.trading_days_per_year : ℝ)) * Z 0 k)
      else 0),
    rfl, listStdSample_singleton _, listMean_singleton _,
    listMedian_singleton _, listMin_singleton _, listMax_singleton _⟩

/-- Degenerate one-path simulator used for C5: unit initial rate, zero
drift and volatility, one day, one simulation, zero variates. -/
def mcUnit : CurrencyMonteCarlo := ⟨1, 0, 0, 252, none, none⟩

/-- The `(1, 1)` path matrix `mcUnit.simulate 1 1` produces. -/
def pmUnit : PathMatrix := ⟨1, 1, fun _ _ => Real.exp (Real.log 1 + 0)⟩

/-- The state of `mcUnit` after the `simulate 1 1` call. -/
def mcUnitSim : CurrencyMonteCarlo :=
  ⟨1, 0, 0, 252, some pmUnit, some [Real.exp (Real.log 1 + 0)]⟩

/-- C5 counterexample. On a simulator whose last `simulate` used
`n_simulations = 1`, `get_prediction` returns `std = NaN` (`none`), not
`0`: the claim "std equal to 0 (not NaN)" fails on the code. -/
theorem std_single_simulation_counterexample :
    mcUnit.simulate 1 1 (fun _ _ => 0) true = .ok (.inl pmUnit, mcUnitSim) ∧
    mcUnitSim.get_prediction 0.95 =
      .ok (predictionOf [Real.exp (Real.log 1 + 0)] 0.95) ∧
    (predictionOf [Real.exp (Real.log 1 + 0)] 0.95).std = none ∧
    (none : Option ℝ) ≠ some 0 := by
  refine ⟨rfl, ?_, listStdSample_singleton (Real.exp (Real.log 1 + 0)), by simp⟩
  norm_num [CurrencyMonteCarlo.get_prediction, mcUnitSim]

/-- Witness for the amended C5 at the concrete one-path run of `mcUnit`. -/
theorem single_simulation_prediction_degenerate_witness :
    ∃ v, mcUnitSim._predicted_rates = some [v] ∧
      (predictionOf [Real.exp (Real.log 1 + 0)] 0.95).std = none ∧
      (predictionOf [Real.exp (Real.log 1 + 0)] 0.95).mean = v ∧
      (predictionOf [Real.exp (Real.log 1 + 0)] 0.95).median = v ∧
      (predictionOf [Real.exp (Real.log 1 + 0)] 0.95).min_val = v ∧
      (predictionOf [Real.exp (Real.log 1 + 0)] 0.95).max_val = v := by
  refine single_simulation_prediction_degenerate mcUnit 1 (fun _ _ => 0) true
    (.inl pmUnit) mcUnitSim rfl 0.95 _ ?_
  norm_num [CurrencyMonteCarlo.get_prediction, mcUnitSim]

/-- The CVaR value (tail mean, or the quantile itself on an empty tail)
never exceeds the quantile that cuts the tail. -/
theorem cvar_value_le_quantile (rets : List ℝ) (q : ℝ) :
    (if 0 < (rets.filter fun x => x ≤ q).length
      then listMean (rets.filter fun x => x ≤ q) else q) ≤ q := by
  split
  · rename_i hlen
    refine listMean_le_of_forall_le (List.length_pos.mp hlen) ?_
    intro x hx
    simpa using (List.mem_filter.mp hx).2
  · exact le_refl q

/-- C4, amended. For any simulated state, `confidence_level ∈ (0,1)`
and `initial_investment > 0`, whenever the VaR quantile lies on the loss
side (`var_percent ≤ 0`), the CVaR magnitude dominates the VaR magnitude:
`|cvar_percent| ≥ |var_percent|`.  (Unconditionally, on the gain side,
the inequality can fail — see the counterexample.) -/
theorem cvar_magnitude_ge_var_on_loss_side
    (m : CurrencyMonteCarlo) (confidence_level initial_investment : ℝ)
    (r : VaRResult)
    (hvar : m.calculate_var confidence_level initial_investment = .ok r)
    (hloss : r.var_percent ≤ 0) :
    |r.var_percent| ≤ |r.cvar_percent| := by
  unfold CurrencyMonteCarlo.calculate_var at hvar
  split at hvar
  · cases hvar
  rename_i pred heq
  split at hvar
  · cases hvar
  split at hvar
  · cases hvar
  injection hvar with hvar
  subst hvar
  simp only [varOf] at hloss ⊢
  set rets := pred.map (fun s => (s - m.initial_rate) / m.initial_rate)
    with hrets
  set q := percentile rets (100 * (1 - confidence_level)) with hq
  set cv := (if 0 < (rets.filter fun x => x ≤ q).length
    then listMean (rets.filter fun x => x ≤ q) else q) with hcv
  have hcvq : cv ≤ q := by rw [hcv]; exact cvar_value_le_quantile rets q
  have hq0 : q ≤ 0 := by nlinarith
  rw [abs_of_nonpos hloss, abs_of_nonpos (by nlinarith)]
  nlinarith

/-- Simulated state whose two terminal values both lie above the initial
rate: the VaR quantile is a gain, where the CVaR magnitude drops below
the VaR magnitude. -/
def mcGain : CurrencyMonteCarlo := ⟨1, 0, 0, 252, none, some [11 / 10, 19 / 10]⟩

/-- Simulated state whose terminal values sit at or below the initial
rate, so the VaR quantile is a loss. -/
def mcLoss : CurrencyMonteCarlo := ⟨1, 0, 0, 252, none, some [1 / 2, 1]⟩

/-- C4 counterexample. With cached terminal values `[1.1, 1.9]`
(initial rate 1) and `confidence_level = 1/2`, `calculate_var` returns
`var_percent = 50` but `cvar_percent = 10`: `|cvar| < |var|`, refuting
the unconditional claim. -/
theorem cvar_magnitude_counterexample :
    mcGain.calculate_var (1 / 2) 10000 = .ok ⟨50, 5000, 10, 1 / 2, 10000⟩ ∧
    ¬(|(50 : ℝ)| ≤ |(10 : ℝ)|) := by
  constructor
  · have hmap : ([11 / 10, 19 / 10] : List ℝ).map
        (fun s => (s - 1) / 1) = [1 / 10, 9 / 10] := by norm_num
    have hq : percentile [(1 : ℝ) / 10, 9 / 10] (100 * (1 - 1 / 2)) = 1 / 2 := by
      rw [percentile_pair (1 / 10) (9 / 10) _ (by norm_num) (by norm_num)
        (by norm_num)]
      norm_num
    have hfil : ([1 / 10, 9 / 10] : List ℝ).filter (fun x => x ≤ 1 / 2)
        = [1 / 10] := by
      norm_num [List.filter]
    simp only [CurrencyMonteCarlo.calculate_var, mcGain]
    rw [if_neg (by norm_num), if_neg (by norm_num)]
    simp only [varOf, hmap, hq, hfil]
    rw [listMean_singleton]
    norm_num [VaRResult.mk.injEq, abs_of_nonneg (by norm_num : (0:ℝ) ≤ 1 / 2)]
  · norm_num

/-- Witness for the amended C4: with cached terminal values `[0.5, 1]`
(initial rate 1) and `confidence_level = 1/2` the quantile is the loss
`−25%`, the CVaR is `−50%`, and `|−25| ≤ |−50|`. -/
theorem cvar_magnitude_ge_var_on_loss_side_witness :
    mcLoss.calculate_var (1 / 2) 10000 =
      .ok ⟨-25, 2500, -50, 1 / 2, 10000⟩ ∧
    |(-25 : ℝ)| ≤ |(-50 : ℝ)| := by
  have hcalc : mcLoss.calculate_var (1 / 2) 10000 =
      .ok ⟨-25, 2500, -50, 1 / 2, 10000⟩ := by
    have hmap : ([1 / 2, 1] : List ℝ).map
        (fun s => (s - 1) / 1) = [-(1 / 2), 0] := by norm_num
    have hq : percentile [(-(1 / 2) : ℝ), 0] (100 * (1 - 1 / 2)) = -(1 / 4) := by
      rw [percentile_pair (-(1 / 2)) 0 _ (by norm_num) (by norm_num)
        (by norm_num)]
      norm_num
    have hfil : ([(-(1 / 2) : ℝ), 0] : List ℝ).filter (fun x => x ≤ -(1 / 4))
        = [-(1 / 2)] := by
      norm_num [List.filter]
    simp only [CurrencyMonteCarlo.calculate_var, mcLoss]
    rw [if_neg (by norm_num), if_neg (by norm_num)]
    simp only [varOf, hmap, hq, hfil]
    rw [listMean_singleton]
    norm_num [VaRResult.mk.injEq,
      abs_of_nonneg (by norm_num : (0 : ℝ) ≤ 1 / 4)]
  refine ⟨hcalc, ?_⟩
  have := cvar_magnitude_ge_var_on_loss_side mcLoss (1 / 2) 10000
    ⟨-25, 2500, -50, 1 / 2, 10000⟩ hcalc (by norm_num)
  simpa using this

/-- The comparison table is the in-order image of the simulated entries:
`filterMap` over `rowOf` is filtering to simulated assets followed by the
row construction. -/
theorem filterMap_rowOf_eq (ms : List (String × CurrencyMonteCarlo)) :
    ms.filterMap (fun p => rowOf p.1 p.2) =
      (ms.filter fun p => p.2._predicted_rates.isSome).map
        (fun p => mkRow p.1 p.2 (p.2._predicted_rates.getD [])) := by
  induction ms with
  | nil => rfl
  | cons a t ih =>
    cases h : a.2._predicted_rates with
    | none =>
      simp only [List.filterMap_cons, List.filter_cons, rowOf, h,
        Option.map_none', Option.isSome_none, Bool.false_eq_true, if_false]
      exact ih
    | some l =>
      simp only [List.filterMap_cons, List.filter_cons, rowOf, h,
        Option.map_some', Option.isSome_some, if_true, List.map_cons,
        Option.getD_some]
      exact congrArg (List.cons (mkRow a.1 a.2 l)) ih

/-- C7. `get_comparison` returns exactly one row per simulated asset,
in insertion order, the row built from the asset's id, initial rate, its
prediction statistics at the default 95% level and its VaR at the default
95% level; never-simulated assets are silently excluded, and the result
is empty (not an error) when nothing is registered or nothing is
simulated. -/
theorem comparison_rows_simulated_assets_in_order
    (o : MultiCurrencyMonteCarlo) :
    o.get_comparison =
      (o.models.filter fun p => p.2._predicted_rates.isSome).map
        (fun p => mkRow p.1 p.2 (p.2._predicted_rates.getD [])) ∧
    o.get_comparison.length =
      (o.models.filter fun p => p.2._predicted_rates.isSome).length ∧
    (o.models = [] → o.get_comparison = []) ∧
    ((∀ p ∈ o.models, p.2._predicted_rates = none) →
      o.get_comparison = []) := by
  unfold MultiCurrencyMonteCarlo.get_comparison
  have h1 := filterMap_rowOf_eq o.models
  refine ⟨h1, ?_, ?_, ?_⟩
  · rw [h1, List.length_map]
  · intro h
    rw [h]
    rfl
  · intro h
    rw [h1]
    have h2 : (o.models.filter fun p => p.2._predicted_rates.isSome) = [] := by
      refine List.filter_eq_nil_iff.mpr ?_
      intro a ha
      simp [h a ha]
    rw [h2]
    rfl

/-- A never-simulated asset entry used by the C7 witness. -/
def oEmpty : MultiCurrencyMonteCarlo := ⟨[]⟩

/-- An orchestrator holding one never-simulated asset. -/
def oFreshOnly : MultiCurrencyMonteCarlo := ⟨[("USD/RUB", mcFresh)]⟩

/-- Witness for C7: the empty orchestrator and the orchestrator with one
never-simulated asset both give the empty table. -/
theorem comparison_rows_simulated_assets_in_order_witness :
    oEmpty.get_comparison = [] ∧ oFreshOnly.get_comparison = [] := by
  constructor
  · exact (comparison_rows_simulated_assets_in_order oEmpty).2.2.1 rfl
  · refine (comparison_rows_simulated_assets_in_order oFreshOnly).2.2.2 ?_
    intro p hp
    rw [List.mem_singleton.mp hp]
    rfl

/-- C6, amended. `get_comparison` does round internally: every row's
numeric fields equal the corresponding `PredictionResult`/`VaRResult`
values (at the default 95% level) rounded to 4 decimal places by the
final `DataFrame.round(4)` — not the unrounded values. -/
theorem comparison_fields_are_rounded_reducer_values
    (o : MultiCurrencyMonteCarlo) (r : ComparisonRow)
    (hr : r ∈ o.get_comparison) :
    ∃ id m l pred var,
      (id, m) ∈ o.models ∧ m._predicted_rates = some l ∧
      m.get_prediction 0.95 = .ok pred ∧
      m.calculate_var 0.95 10000 = .ok var ∧
      r.currency_pair = id ∧
      r.initial_rate = round4 m.initial_rate ∧
      r.predicted_mean = round4 pred.mean ∧
      r.predicted_median = round4 pred.median ∧
      r.std_dev = pred.std.map round4 ∧
      r.var_percent = round4 var.var_percent ∧
      r.min_val = round4 pred.min_val ∧
      r.max_val = round4 pred.max_val ∧
      r.ci_lower = round4 pred.confidence_interval.1 ∧
      r.ci_upper = round4 pred.confidence_interval.2 := by
  unfold MultiCurrencyMonteCarlo.get_comparison at hr
  obtain ⟨p, hp, hrow⟩ := List.mem_filterMap.mp hr
  obtain ⟨id, m⟩ := p
  unfold rowOf at hrow
  obtain ⟨l, hl, hmk⟩ := Option.map_eq_some'.mp hrow
  subst hmk
  dsimp only at hl
  refine ⟨id, m, l, predictionOf l 0.95,
    varOf m.initial_rate l 0.95 10000, hp, hl, ?_, ?_, rfl, rfl, rfl, rfl,
    rfl, rfl, rfl, rfl, rfl, rfl⟩
  · simp only [CurrencyMonteCarlo.get_prediction, hl]
    rw [if_neg (by norm_num)]
  · simp only [CurrencyMonteCarlo.calculate_var, hl]
    rw [if_neg (by norm_num), if_neg (by norm_num)]

/-- One-asset orchestrator whose terminal value `10⁻⁵` rounds to `0` in
the comparison table. -/
def mC6 : CurrencyMonteCarlo := ⟨1, 0, 0, 252, none, some [1 / 100000]⟩

/-- The orchestrator holding just `mC6`. -/
def oC6 : MultiCurrencyMonteCarlo := ⟨[("A", mC6)]⟩

/-- C6 counterexample. The sole row of `oC6.get_comparison` carries
`predicted_mean = 0`, while the unrounded `PredictionResult` mean of the
cached terminal column is `10⁻⁵ ≠ 0`: the table's numeric fields are not
the unrounded reducer values. -/
theorem comparison_rounding_counterexample :
    (oC6.get_comparison.map fun r => r.predicted_mean) = [0] ∧
    (predictionOf [(1 : ℝ) / 100000] 0.95).mean = 1 / 100000 ∧
    ((0 : ℝ) ≠ 1 / 100000) := by
  refine ⟨?_, listMean_singleton _, by norm_num⟩
  have h1 : oC6.get_comparison = [mkRow "A" mC6 [1 / 100000]] := rfl
  rw [h1]
  simp only [List.map_cons, List.map_nil]
  congr 1
  show round4 (predictionOf [(1 : ℝ) / 100000] 0.95).mean = 0
  rw [show (predictionOf [(1 : ℝ) / 100000] 0.95).mean = 1 / 100000 from
    listMean_singleton _]
  unfold round4 roundHalfToEven
  have hx : (1 : ℝ) / 100000 * 10000 = 1 / 10 := by norm_num
  rw [hx]
  have hfl : ⌊(1 : ℝ) / 10⌋ = 0 := by
    rw [Int.floor_eq_iff]
    constructor <;> norm_num
  rw [hfl]
  rw [if_pos (by norm_num)]
  norm_num

/-- Witness for the amended C6 at the one-asset orchestrator `oC6`. -/
theorem comparison_fields_are_rounded_reducer_values_witness :
    ∃ id m l pred var,
      (id, m) ∈ oC6.models ∧ m._predicted_rates = some l ∧
      m.get_prediction 0.95 = .ok pred ∧
      m.calculate_var 0.95 10000 = .ok var ∧
      (mkRow "A" mC6 [1 / 100000]).currency_pair = id ∧
      (mkRow "A" mC6 [1 / 100000]).initial_rate = round4 m.initial_rate ∧
      (mkRow "A" mC6 [1 / 100000]).predicted_mean = round4 pred.mean ∧
      (mkRow "A" mC6 [1 / 100000]).predicted_median = round4 pred.median ∧
      (mkRow "A" mC6 [1 / 100000]).std_dev = pred.std.map round4 ∧
      (mkRow "A" mC6 [1 / 100000]).var_percent = round4 var.var_percent ∧
      (mkRow "A" mC6 [1 / 100000]).min_val = round4 pred.min_val ∧
      (mkRow "A" mC6 [1 / 100000]).max_val = round4 pred.max_val ∧
      (mkRow "A" mC6 [1 / 100000]).ci_lower =
        round4 pred.confidence_interval.1 ∧
      (mkRow "A" mC6 [1 / 100000]).ci_upper =
        round4 pred.confidence_interval.2 := by
  refine comparison_fields_are_rounded_reducer_values oC6
    (mkRow "A" mC6 [1 / 100000]) ?_
  have h1 : oC6.get_comparison = [mkRow "A" mC6 [1 / 100000]] := rfl
  rw [h1]
  exact List.mem_singleton.mpr rfl
